import Mathlib

/-!
Shallow embedding of `cmd/bulk_load_timescaledb/main.go` (tsbs bulk loader).

Go strings are modelled as `List Char`.  The program's pieces embedded here:

* `scan` — the Reader: splits each input line at its first comma into
  `(hypertable, copy line)`, accumulates copy lines per hypertable, and emits
  one batch per non-empty accumulator whenever the running row total reaches
  the configured batch size, plus a final flush at end of stream.  A line
  without a comma makes the Go code index `parts[1]` out of range; the
  embedding returns `Except.error` there.
* `processBatches` — the Worker: per batch, prepare a COPY statement, split
  each row on commas, parse the first field as a base-10 64-bit integer,
  execute each row, then add the row/column totals to the shared counters,
  then close the statement and commit.  Failures of prepare/parse/exec/close/
  commit are modelled through `DbEnv` and surface as `Fatal` outcomes.
* `report` — the Reporter tick body: the list of numeric quantities printed
  on each tick, over exact rationals.
* `initBenchmarkDB` — the Schema Initializer: header lines up to the first
  blank line are turned into table/partitioning/index definitions; an
  unrecognized non-empty index token is a fatal configuration error.
* a labelled transition system for the shutdown ordering of `main`
  (reader completion signal, queue close, worker drain, final summary).

Go map iteration order is unspecified; the per-hypertable accumulator is
modelled as an insertion-ordered association list, which fixes one order.
All properties proved below are order-insensitive (sums, sizes, membership).
-/

deriving instance DecidableEq for Except

namespace TSBS

/-- Go strings, modelled as lists of characters. -/
abbrev Str : Type := List Char

/-- Embeds a Lean string literal as a `Str`. -/
def str (s : String) : Str := s.data

/-- Helper for `strings.Split(s, ",")`: splits on every occurrence of `c`. -/
def splitAux (c : Char) : List Char → List Char → List Str
  | [], cur => [cur.reverse]
  | x :: xs, cur => if x = c then cur.reverse :: splitAux c xs [] else splitAux c xs (x :: cur)

/-- Go `strings.Split(s, ",")`. -/
def splitComma (s : Str) : List Str := splitAux ',' s []

/-- Helper for `strings.SplitN(s, ",", 2)`: splits at the first comma only. -/
def splitN2Aux : List Char → List Char → List Str
  | [], cur => [cur.reverse]
  | x :: xs, cur => if x = ',' then [cur.reverse, xs] else splitN2Aux xs (x :: cur)

/-- Go `strings.SplitN(s, ",", 2)`. -/
def splitN2Comma (s : Str) : List Str := splitN2Aux s []

/-- Go `parts[0]` on the (never empty) result of a split. -/
def firstPart (l : List Str) : Str := l.headD []

/-- The `hypertableBatch` struct: one hypertable name and its copy lines. -/
structure HypertableBatch where
  hypertable : Str
  rows : List Str
deriving DecidableEq

/-- State of `scan`'s loop: the per-hypertable accumulator map (insertion
ordered), the running row total `n` since the last flush, the `linesRead`
counter, and the batches already sent to `batchChan`. -/
structure ScanState where
  acc : List (Str × List Str)
  n : Nat
  linesRead : Nat
  emitted : List HypertableBatch
deriving DecidableEq

/-- Go `batch[hypertable] = append(batch[hypertable], parts[1])`. -/
def accAppend : List (Str × List Str) → Str → Str → List (Str × List Str)
  | [], k, v => [(k, [v])]
  | (k', vs) :: rest, k, v =>
    if k' = k then (k', vs ++ [v]) :: rest else (k', vs) :: accAppend rest k v

/-- Flushing the accumulator: one `hypertableBatch` per map entry. -/
def flushAcc (acc : List (Str × List Str)) : List HypertableBatch :=
  acc.map fun p => ⟨p.1, p.2⟩

/-- Loop body of `scan` given the already-split parts of the line.  The Go
code reads `parts[0]` and `parts[1]`; when the split produced fewer than two
parts (a line without a comma) the `parts[1]` access is out of range, which
is the error case here. -/
def scanStepParts (itemsPerBatch : Nat) (st : ScanState) : List Str → Except Unit ScanState
  | hypertable :: rest :: _ =>
    if st.n + 1 ≥ itemsPerBatch then
      Except.ok ⟨[], 0, st.linesRead + 1,
        st.emitted ++ flushAcc (accAppend st.acc hypertable rest)⟩
    else
      Except.ok ⟨accAppend st.acc hypertable rest, st.n + 1, st.linesRead + 1, st.emitted⟩
  | _ => Except.error ()

/-- One iteration of `scan`'s loop on one input line. -/
def scanStep (itemsPerBatch : Nat) (st : ScanState) (line : Str) : Except Unit ScanState :=
  scanStepParts itemsPerBatch st (splitN2Comma line)

/-- The whole read loop of `scan` over the remaining input lines. -/
def scanLines (itemsPerBatch : Nat) : List Str → ScanState → Except Unit ScanState
  | [], st => Except.ok st
  | l :: ls, st =>
    match scanStep itemsPerBatch st l with
    | Except.error e => Except.error e
    | Except.ok st' => scanLines itemsPerBatch ls st'

/-- Go `scan(itemsPerBatch, scanner)`: runs the loop from the empty state,
flushes the last partial accumulator if `n > 0`, and returns the batches
placed on `batchChan` together with the returned `linesRead` total. -/
def scan (itemsPerBatch : Nat) (lines : List Str) :
    Except Unit (List HypertableBatch × Nat) :=
  match scanLines itemsPerBatch lines ⟨[], 0, 0, []⟩ with
  | Except.error e => Except.error e
  | Except.ok st =>
    Except.ok ((if st.n > 0 then st.emitted ++ flushAcc st.acc else st.emitted), st.linesRead)

/-- Total number of rows across a list of batches. -/
def rowsEmitted : List HypertableBatch → Nat
  | [] => 0
  | b :: rest => b.rows.length + rowsEmitted rest

/-- Total number of rows held in the accumulator map. -/
def rowsAcc : List (Str × List Str) → Nat
  | [] => 0
  | p :: rest => p.2.length + rowsAcc rest

/-! ### Worker (`processBatches`) -/

/-- Digit run of Go `strconv.ParseInt(s, 10, 64)`: a non-empty all-digit
suffix, evaluated in base 10. -/
def parseDigits : List Char → Option Nat
  | [] => none
  | cs => cs.foldl (fun acc c =>
      match acc with
      | none => none
      | some n => if c.isDigit then some (n * 10 + (c.toNat - 48)) else none) (some 0)

/-- Go `strconv.ParseInt(value, 10, 64)`: optional single sign, then a
non-empty digit string; the result must fit in a signed 64-bit integer,
otherwise it is a range error (`none`). -/
def go_parseInt64 (s : Str) : Option Int :=
  match s with
  | '+' :: rest =>
    (parseDigits rest).bind fun n => if (n : Int) ≤ 2 ^ 63 - 1 then some (n : Int) else none
  | '-' :: rest =>
    (parseDigits rest).bind fun n => if (n : Int) ≤ 2 ^ 63 then some (-(n : Int)) else none
  | _ =>
    (parseDigits s).bind fun n => if (n : Int) ≤ 2 ^ 63 - 1 then some (n : Int) else none

/-- The shared atomic counters `rowCount` and `columnCount`. -/
structure Counters where
  rowCount : Int
  columnCount : Int
deriving DecidableEq

/-- The ways a worker's write path can die: `tx.Prepare` error, timestamp
parse error, `stmt.Exec` error, `stmt.Close` error, `tx.Commit` error. -/
inductive Fatal where
  | prepareErr
  | parseErr
  | execErr
  | closeErr
  | commitErr
deriving DecidableEq

/-- Behaviour of the opaque database for one batch: whether `Prepare` fails,
which `Exec` call (by row index) fails if any, and whether `Close`/`Commit`
fail. -/
structure DbEnv where
  prepareFails : Bool
  execFailsAt : Option Nat
  closeFails : Bool
  commitFails : Bool
deriving DecidableEq

/-- The row loop of `processBatches`: for each row, split on commas, add the
field count to `columnCountWorker`, parse the first field as an int64
timestamp (fatal on failure), and execute the prepared statement (fatal on
failure).  Returns `(columnCountWorker, rows fully executed, outcome)`. -/
def processRows (execFail : Option Nat) : List Str → Nat → Nat → Nat × Nat × Option Fatal
  | [], execed, col => (col, execed, none)
  | row :: rest, execed, col =>
    let sp := splitComma row
    match go_parseInt64 (firstPart sp) with
    | none => (col + sp.length, execed, some Fatal.parseErr)
    | some _ =>
      if execFail = some execed then (col + sp.length, execed, some Fatal.execErr)
      else processRows execFail rest (execed + 1) (col + sp.length)

/-- Outcome of one batch: the shared counters afterwards, how many rows were
executed, and whether (and where) the worker died. -/
structure BatchResult where
  counters : Counters
  execed : Nat
  fatal : Option Fatal
deriving DecidableEq

/-- Total field count of a batch's rows (`sum of len(strings.Split(line, ","))`). -/
def batchCols : List Str → Nat
  | [] => 0
  | r :: rest => (splitComma r).length + batchCols rest

/-- Tail of a successfully executed batch, after the counter additions:
`stmt.Close()` then `tx.Commit()`, each fatal on error. -/
def finishBatch (env : DbEnv) (c' : Counters) (execed : Nat) : BatchResult :=
  if env.closeFails then ⟨c', execed, some Fatal.closeErr⟩
  else if env.commitFails then ⟨c', execed, some Fatal.commitErr⟩
  else ⟨c', execed, none⟩

/-- Continuation of `processBatches` after the row loop: a fatal row outcome
propagates with the counters untouched, otherwise the two atomic counter
additions happen and the batch is finished with close and commit. -/
def afterRows (env : DbEnv) (c : Counters) (rowsLen : Nat) :
    Nat × Nat × Option Fatal → BatchResult
  | (_, execed, some p) => ⟨c, execed, some p⟩
  | (col, execed, none) =>
    finishBatch env ⟨c.rowCount + rowsLen, c.columnCount + col⟩ execed

/-- One `doLoad` iteration of `processBatches` on one batch, mirroring the
source order: prepare, per-row parse/exec, then the two atomic counter
additions, then statement close, then commit. -/
def processBatch (env : DbEnv) (c : Counters) (b : HypertableBatch) : BatchResult :=
  if env.prepareFails then ⟨c, 0, some Fatal.prepareErr⟩
  else afterRows env c b.rows.length (processRows env.execFailsAt b.rows 0 0)

/-- A worker draining a queue of batches.  With `doLoad = false` each batch
is received and immediately skipped (`continue`); with `doLoad = true` each
batch is processed and a fatal outcome stops the run.  Returns the final
counters, the number of batches consumed from the queue, and the outcome. -/
def runWorker (doLoad : Bool) (env : DbEnv) :
    List HypertableBatch → Counters → Counters × Nat × Option Fatal
  | [], c => (c, 0, none)
  | b :: bs, c =>
    if doLoad then
      let r := processBatch env c b
      match r.fatal with
      | some p => (r.counters, 1, some p)
      | none =>
        let rest := runWorker doLoad env bs r.counters
        (rest.1, rest.2.1 + 1, rest.2.2)
    else
      let rest := runWorker doLoad env bs c
      (rest.1, rest.2.1 + 1, rest.2.2)

/-! ### Reporter (`report`) -/

/-- The numeric quantities printed by one tick of `report`, in order: the
period column rate, the period row rate, the overall row rate, and the total
row count — exactly the arguments after the timestamp of the REPORT printf.
Rates are modelled over exact rationals. -/
def reportEmitted (colCount rowCount prevColCount prevRowCount : Int)
    (tookPeriod elapsedTotal : ℚ) : List ℚ :=
  [((colCount - prevColCount : Int) : ℚ) / tookPeriod,
   ((rowCount - prevRowCount : Int) : ℚ) / tookPeriod,
   (rowCount : ℚ) / elapsedTotal,
   (rowCount : ℚ)]

/-- A delta-since-last-tick rate, as the spec words it. -/
def periodRate (cur prev : Int) (took : ℚ) : ℚ := ((cur - prev : Int) : ℚ) / took

/-- A delta-since-run-start rate, as the spec words it. -/
def overallRate (cur : Int) (elapsed : ℚ) : ℚ := (cur : ℚ) / elapsed

/-! ### Schema Initializer (`initBenchmarkDB`) -/

/-- One index-type token of the configured policy applied to one field:
`TIME-VALUE` and `VALUE-TIME` yield a composite ordering, the empty token
yields no index, and any other token is the `Unknown index type` fatal
error. -/
def indexClause (tok field : Str) : Except Str (Option Str) :=
  if tok = str "TIME-VALUE" then Except.ok (some (str "(time, " ++ field ++ str ")"))
  else if tok = str "VALUE-TIME" then Except.ok (some (str "(" ++ field ++ str ",time)"))
  else if tok = [] then Except.ok none
  else Except.error (str "Unknown index type " ++ tok)

/-- The inner token loop: every recognized token contributes one
`CREATE INDEX` statement for the field. -/
def processTokens (hypertable field : Str) : List Str → Except Str (List Str)
  | [] => Except.ok []
  | tok :: rest =>
    match indexClause tok field with
    | Except.error e => Except.error e
    | Except.ok none => processTokens hypertable field rest
    | Except.ok (some d) =>
      match processTokens hypertable field rest with
      | Except.error e => Except.error e
      | Except.ok ds =>
        Except.ok ((str "CREATE INDEX ON " ++ hypertable ++ str " " ++ d) :: ds)

/-- The per-relation schema derived from one header line. -/
structure LineSchema where
  hypertable : Str
  partitioningField : Str
  fieldDef : List Str
  indexes : List Str
deriving DecidableEq

/-- The field loop of `initBenchmarkDB` over `parts[1:]`: empty fields are
skipped (the index still advances), field 0 is the text-typed tag field
using the tag index policy, later fields are double-precision measurements
using the field index policy, applied only when `fieldIndexCount` is `-1` or
`idx ≤ fieldIndexCount`. -/
def processFields (tagIdx fieldIdx : Str) (fic : Int) (hypertable : Str) :
    List Str → Nat → Str → List Str → List Str → Except Str (Str × List Str × List Str)
  | [], _, pf, fd, idxs => Except.ok (pf, fd, idxs)
  | field :: rest, idx, pf, fd, idxs =>
    if field = [] then processFields tagIdx fieldIdx fic hypertable rest (idx + 1) pf fd idxs
    else
      let fieldType := if idx = 0 then str "TEXT" else str "DOUBLE PRECISION"
      let idxType := if idx = 0 then tagIdx else fieldIdx
      let pf' := if idx = 0 then field else pf
      let fd' := fd ++ [field ++ str " " ++ fieldType]
      if fic = -1 ∨ (idx : Int) ≤ fic then
        match processTokens hypertable field (splitComma idxType) with
        | Except.error e => Except.error e
        | Except.ok newIdxs =>
          processFields tagIdx fieldIdx fic hypertable rest (idx + 1) pf' fd' (idxs ++ newIdxs)
      else processFields tagIdx fieldIdx fic hypertable rest (idx + 1) pf' fd' idxs

/-- Schema derivation for one header line `relation,field1,field2,...`. -/
def processHeaderLine (tagIdx fieldIdx : Str) (fic : Int) (line : Str) :
    Except Str LineSchema :=
  let parts := splitComma line
  let hypertable := firstPart parts
  match processFields tagIdx fieldIdx fic hypertable parts.tail 0 [] [] [] with
  | Except.error e => Except.error e
  | Except.ok (pf, fd, idxs) => Except.ok ⟨hypertable, pf, fd, idxs⟩

/-- The header loop of `initBenchmarkDB`: one schema per header line, in
order, stopping at the first blank line; an `Unknown index type` error
aborts before any further relation is created. -/
def initBenchmarkDB (tagIdx fieldIdx : Str) (fic : Int) :
    List Str → Except Str (List LineSchema)
  | [] => Except.ok []
  | line :: rest =>
    if line = [] then Except.ok []
    else
      match processHeaderLine tagIdx fieldIdx fic line with
      | Except.error e => Except.error e
      | Except.ok s =>
        match initBenchmarkDB tagIdx fieldIdx fic rest with
        | Except.error e => Except.error e
        | Except.ok ss => Except.ok (s :: ss)

/-! ### Shutdown ordering of `main` -/

/-- Observable coordination state of a run: whether `scan` has finished
flushing, whether `inputDone` has been closed, the contents of `batchChan`,
whether `batchChan` has been closed, how many workers have called
`workersGroup.Done()`, and whether `main` has passed `workersGroup.Wait()`
and printed the final summary. -/
structure PipeState where
  readerDone : Bool
  inputDone : Bool
  queue : List Nat
  queueClosed : Bool
  exited : Nat
  summaryPrinted : Bool
deriving DecidableEq

/-- Interleaved transitions of `main`, `scan` and the workers, as the channel
and wait-group operations of the source permit them: `scan` only sends while
it is still running, closes `inputDone` after its final flush, `main` closes
`batchChan` only after receiving from `inputDone`, a worker's range loop only
ends once the queue is closed and drained, and `main` prints the summary only
once all `W` workers have called `Done`. -/
inductive PipeStep (W : Nat) : PipeState → PipeState → Prop where
  | enqueue (s : PipeState) (b : Nat) :
      s.readerDone = false → s.queueClosed = false →
      PipeStep W s { s with queue := s.queue ++ [b] }
  | readerFinish (s : PipeState) :
      s.readerDone = false →
      PipeStep W s { s with readerDone := true }
  | signalInputDone (s : PipeState) :
      s.readerDone = true → s.inputDone = false →
      PipeStep W s { s with inputDone := true }
  | closeQueue (s : PipeState) :
      s.inputDone = true → s.queueClosed = false →
      PipeStep W s { s with queueClosed := true }
  | workerTake (s : PipeState) (b : Nat) (q : List Nat) :
      s.queue = b :: q →
      PipeStep W s { s with queue := q }
  | workerExit (s : PipeState) :
      s.queueClosed = true → s.queue = [] → s.exited < W →
      PipeStep W s { s with exited := s.exited + 1 }
  | printSummary (s : PipeState) :
      s.exited = W → s.summaryPrinted = false →
      PipeStep W s { s with summaryPrinted := true }

/-- The initial coordination state, before `scan` reads anything. -/
def pipeInit : PipeState := ⟨false, false, [], false, 0, false⟩

/-- States a run can actually be in. -/
def PipeReachable (W : Nat) (s : PipeState) : Prop :=
  Relation.ReflTransGen (PipeStep W) pipeInit s

/-! ### Lemmas about the Reader -/

lemma rowsAcc_accAppend (acc : List (Str × List Str)) (k v : Str) :
    rowsAcc (accAppend acc k v) = rowsAcc acc + 1 := by
  induction acc with
  | nil => simp [accAppend, rowsAcc]
  | cons p rest ih =>
    obtain ⟨k', vs⟩ := p
    by_cases hk : k' = k
    · simp only [accAppend, if_pos hk, rowsAcc, List.length_append, List.length_cons,
        List.length_nil]
      omega
    · simp only [accAppend, if_neg hk, rowsAcc, ih]
      omega

lemma rowsEmitted_append (a b : List HypertableBatch) :
    rowsEmitted (a ++ b) = rowsEmitted a + rowsEmitted b := by
  induction a with
  | nil => simp [rowsEmitted]
  | cons x xs ih => simp only [List.cons_append, rowsEmitted, List.append_eq, ih]; omega

lemma rowsEmitted_flushAcc (acc : List (Str × List Str)) :
    rowsEmitted (flushAcc acc) = rowsAcc acc := by
  induction acc with
  | nil => simp [flushAcc, rowsEmitted, rowsAcc]
  | cons p rest ih =>
    simp only [flushAcc, List.map_cons, rowsEmitted, rowsAcc] at *
    omega

lemma scanStep_ok_counts {ipb : Nat} {st st' : ScanState} {line : Str}
    (h : scanStep ipb st line = Except.ok st') :
    st'.linesRead = st.linesRead + 1 ∧
    rowsEmitted st'.emitted + rowsAcc st'.acc = rowsEmitted st.emitted + rowsAcc st.acc + 1 ∧
    (rowsAcc st.acc = st.n → rowsAcc st'.acc = st'.n) := by
  unfold scanStep at h
  rcases hsp : splitN2Comma line with _ | ⟨a, _ | ⟨b, l⟩⟩ <;> rw [hsp] at h
  · simp [scanStepParts] at h
  · simp [scanStepParts] at h
  · simp only [scanStepParts] at h
    split at h
    · injection h with h
      subst h
      refine ⟨rfl, ?_, fun _ => rfl⟩
      simp only [rowsEmitted_append, rowsEmitted_flushAcc, rowsAcc_accAppend, rowsAcc]
      omega
    · injection h with h
      subst h
      exact ⟨rfl, by simp only [rowsAcc_accAppend]; omega,
        fun hinv => by simp only [rowsAcc_accAppend, hinv]⟩

lemma scanLines_ok_counts {ipb : Nat} : ∀ {ls : List Str} {st st' : ScanState},
    scanLines ipb ls st = Except.ok st' →
    st'.linesRead = st.linesRead + ls.length ∧
    rowsEmitted st'.emitted + rowsAcc st'.acc
      = rowsEmitted st.emitted + rowsAcc st.acc + ls.length ∧
    (rowsAcc st.acc = st.n → rowsAcc st'.acc = st'.n) := by
  intro ls
  induction ls with
  | nil =>
    intro st st' h
    simp only [scanLines] at h
    injection h with h
    subst h
    simp
  | cons l ls ih =>
    intro st st' h
    simp only [scanLines] at h
    rcases hstep : scanStep ipb st l with e | st1 <;> rw [hstep] at h
    · simp at h
    · obtain ⟨h1, h2, h3⟩ := scanStep_ok_counts hstep
      obtain ⟨g1, g2, g3⟩ := ih h
      refine ⟨by simp only [List.length_cons]; omega, by simp only [List.length_cons]; omega,
        fun hinv => g3 (h3 hinv)⟩

lemma mem_flushAcc {acc : List (Str × List Str)} {b : HypertableBatch}
    (hb : b ∈ flushAcc acc) : ∃ p ∈ acc, b.rows = p.2 := by
  simp only [flushAcc, List.mem_map] at hb
  obtain ⟨p, hp, rfl⟩ := hb
  exact ⟨p, hp, rfl⟩

lemma accAppend_mem_sizes {acc : List (Str × List Str)} {n : Nat} {k v : Str}
    (h : ∀ p ∈ acc, 0 < p.2.length ∧ p.2.length ≤ n) :
    ∀ p ∈ accAppend acc k v, 0 < p.2.length ∧ p.2.length ≤ n + 1 := by
  induction acc with
  | nil =>
    intro p hp
    simp only [accAppend, List.mem_singleton] at hp
    subst hp
    simp
  | cons q rest ih =>
    obtain ⟨k', vs⟩ := q
    intro p hp
    by_cases hk : k' = k
    · simp only [accAppend, if_pos hk, List.mem_cons] at hp
      rcases hp with rfl | hp
      · have hkv : 0 < vs.length ∧ vs.length ≤ n := h (k', vs) (by simp)
        simp only [List.length_append, List.length_singleton]
        omega
      · have := h p (by simp [hp])
        omega
    · simp only [accAppend, if_neg hk, List.mem_cons] at hp
      rcases hp with rfl | hp
      · have hkv : 0 < vs.length ∧ vs.length ≤ n := h (k', vs) (by simp)
        simp only []
        omega
      · exact ih (fun q hq => h q (by simp [hq])) p hp

lemma scanStep_ok_sizes {ipb : Nat} {st st' : ScanState} {line : Str}
    (hipb : 1 ≤ ipb)
    (h : scanStep ipb st line = Except.ok st')
    (hem : ∀ b ∈ st.emitted, 0 < b.rows.length ∧ b.rows.length ≤ ipb)
    (hacc : ∀ p ∈ st.acc, 0 < p.2.length ∧ p.2.length ≤ st.n)
    (hn : st.n < ipb) :
    (∀ b ∈ st'.emitted, 0 < b.rows.length ∧ b.rows.length ≤ ipb) ∧
    (∀ p ∈ st'.acc, 0 < p.2.length ∧ p.2.length ≤ st'.n) ∧
    st'.n < ipb := by
  unfold scanStep at h
  rcases hsp : splitN2Comma line with _ | ⟨a, _ | ⟨b, l⟩⟩ <;> rw [hsp] at h
  · simp [scanStepParts] at h
  · simp [scanStepParts] at h
  · simp only [scanStepParts] at h
    split at h
    · injection h with h
      subst h
      refine ⟨?_, by simp, by simpa using hipb⟩
      intro b' hb'
      simp only [List.mem_append] at hb'
      rcases hb' with hb' | hb'
      · exact hem b' hb'
      · obtain ⟨p, hp, hrows⟩ := mem_flushAcc hb'
        have := accAppend_mem_sizes hacc p hp
        rw [hrows]
        omega
    · injection h with h
      subst h
      refine ⟨hem, ?_, by simp only []; omega⟩
      intro p hp
      exact accAppend_mem_sizes hacc p hp

lemma scanLines_ok_sizes {ipb : Nat} (hipb : 1 ≤ ipb) : ∀ {ls : List Str} {st st' : ScanState},
    scanLines ipb ls st = Except.ok st' →
    (∀ b ∈ st.emitted, 0 < b.rows.length ∧ b.rows.length ≤ ipb) →
    (∀ p ∈ st.acc, 0 < p.2.length ∧ p.2.length ≤ st.n) →
    st.n < ipb →
    (∀ b ∈ st'.emitted, 0 < b.rows.length ∧ b.rows.length ≤ ipb) ∧
    (∀ p ∈ st'.acc, 0 < p.2.length ∧ p.2.length ≤ st'.n) ∧
    st'.n < ipb := by
  intro ls
  induction ls with
  | nil =>
    intro st st' h hem hacc hn
    simp only [scanLines] at h
    injection h with h
    subst h
    exact ⟨hem, hacc, hn⟩
  | cons l ls ih =>
    intro st st' h hem hacc hn
    simp only [scanLines] at h
    rcases hstep : scanStep ipb st l with e | st1 <;> rw [hstep] at h
    · simp at h
    · obtain ⟨g1, g2, g3⟩ := scanStep_ok_sizes hipb hstep hem hacc hn
      exact ih h g1 g2 g3

/-- C1: the Reader's conservation law.  Whenever `scan` completes, the
returned `linesRead` total equals the number of input lines, and the rows of
all batches placed on the queue (threshold flushes and the final flush
together) sum to that same number: no row is dropped or duplicated. -/
theorem scan_row_conservation (ipb : Nat) (lines : List Str)
    (emitted : List HypertableBatch) (cnt : Nat)
    (h : scan ipb lines = Except.ok (emitted, cnt)) :
    cnt = lines.length ∧ rowsEmitted emitted = lines.length := by
  unfold scan at h
  rcases hsl : scanLines ipb lines ⟨[], 0, 0, []⟩ with e | st <;> rw [hsl] at h
  · simp at h
  · injection h with h
    obtain ⟨he, hc⟩ : (if st.n > 0 then st.emitted ++ flushAcc st.acc else st.emitted) = emitted
        ∧ st.linesRead = cnt := by
      exact ⟨congrArg Prod.fst h, congrArg Prod.snd h⟩
    obtain ⟨g1, g2, g3⟩ := scanLines_ok_counts hsl
    have hinv : rowsAcc st.acc = st.n := g3 rfl
    have g1' : st.linesRead = lines.length := by simpa using g1
    have g2' : rowsEmitted st.emitted + rowsAcc st.acc = lines.length := by
      simpa [rowsEmitted, rowsAcc] using g2
    constructor
    · omega
    · by_cases hn : st.n > 0
      · rw [if_pos hn] at he
        subst he
        rw [rowsEmitted_append, rowsEmitted_flushAcc]
        omega
      · rw [if_neg hn] at he
        subst he
        omega

/-- Witness for C1 on a concrete three-line stream with batch size 2. -/
theorem scan_row_conservation_witness :
    (3 : Nat) = [str "cpu,1", str "cpu,2", str "mem,3"].length ∧
    rowsEmitted [⟨str "cpu", [str "1", str "2"]⟩, ⟨str "mem", [str "3"]⟩]
      = [str "cpu,1", str "cpu,2", str "mem,3"].length :=
  scan_row_conservation 2 [str "cpu,1", str "cpu,2", str "mem,3"]
    [⟨str "cpu", [str "1", str "2"]⟩, ⟨str "mem", [str "3"]⟩] 3 (by decide)

/-- C4 (amended): every batch placed on the queue is non-empty and holds at
most the configured batch size of rows (batch size at least 1), and a
relation that accumulated zero rows between flush points produces no batch.
Undersized per-relation batches can come from any flush, mid-run threshold
flushes included, since the threshold counts rows across all relations. -/
theorem scan_batch_bounds (ipb : Nat) (lines : List Str)
    (emitted : List HypertableBatch) (cnt : Nat)
    (hipb : 1 ≤ ipb) (h : scan ipb lines = Except.ok (emitted, cnt)) :
    ∀ b ∈ emitted, 0 < b.rows.length ∧ b.rows.length ≤ ipb := by
  unfold scan at h
  rcases hsl : scanLines ipb lines ⟨[], 0, 0, []⟩ with e | st <;> rw [hsl] at h
  · simp at h
  · injection h with h
    have he : (if st.n > 0 then st.emitted ++ flushAcc st.acc else st.emitted) = emitted :=
      congrArg Prod.fst h
    obtain ⟨g1, g2, g3⟩ := scanLines_ok_sizes hipb hsl (by simp) (by simp)
      (by simpa using hipb)
    by_cases hn : st.n > 0
    · rw [if_pos hn] at he
      subst he
      intro b hb
      simp only [List.mem_append] at hb
      rcases hb with hb | hb
      · exact g1 b hb
      · obtain ⟨p, hp, hrows⟩ := mem_flushAcc hb
        have := g2 p hp
        rw [hrows]
        omega
    · rw [if_neg hn] at he
      subst he
      exact g1

/-- Witness for C4 with batch size 2 on the concrete three-line stream. -/
theorem scan_batch_bounds_witness :
    0 < (⟨str "cpu", [str "1", str "2"]⟩ : HypertableBatch).rows.length ∧
    (⟨str "cpu", [str "1", str "2"]⟩ : HypertableBatch).rows.length ≤ 2 :=
  scan_batch_bounds 2 [str "cpu,1", str "cpu,2", str "mem,3"]
    [⟨str "cpu", [str "1", str "2"]⟩, ⟨str "mem", [str "3"]⟩] 3 (by decide) (by decide)
    ⟨str "cpu", [str "1", str "2"]⟩ (by decide)

/-- Counterexample to C4 as stated: undersized batches are not confined to
the final end-of-stream flush.  The flush threshold counts rows across all
relations, so with batch size 2 and lines `cpu,a / mem,b / cpu,c` the
mid-run threshold flush after the second line (the stream still has a third
line to read, so this is not the final flush) already emits the two
one-row batches `(cpu,[a])` and `(mem,[b])`, each smaller than the
configured size 2. -/
theorem scan_undersized_midrun_counterexample :
    scanLines 2 [str "cpu,a", str "mem,b"] ⟨[], 0, 0, []⟩ =
      Except.ok ⟨[], 0, 2, [⟨str "cpu", [str "a"]⟩, ⟨str "mem", [str "b"]⟩]⟩ ∧
    (⟨str "mem", [str "b"]⟩ : HypertableBatch).rows.length < 2 ∧
    scan 2 [str "cpu,a", str "mem,b", str "cpu,c"] =
      Except.ok ([⟨str "cpu", [str "a"]⟩, ⟨str "mem", [str "b"]⟩,
        ⟨str "cpu", [str "c"]⟩], 3) := by decide

lemma splitN2Aux_no_comma : ∀ (l cur : List Char), ',' ∉ l →
    splitN2Aux l cur = [cur.reverse ++ l] := by
  intro l
  induction l with
  | nil => intro cur _; simp [splitN2Aux]
  | cons x xs ih =>
    intro cur h
    simp only [List.mem_cons, not_or] at h
    have hx : ¬(x = ',') := fun hxx => h.1 hxx.symm
    simp only [splitN2Aux, if_neg hx, ih (x :: cur) h.2, List.reverse_cons,
      List.append_assoc, List.singleton_append]

lemma splitN2Aux_comma : ∀ (pre post cur : List Char), ',' ∉ pre →
    splitN2Aux (pre ++ ',' :: post) cur = [cur.reverse ++ pre, post] := by
  intro pre
  induction pre with
  | nil => intro post cur _; simp [splitN2Aux]
  | cons x xs ih =>
    intro post cur h
    simp only [List.mem_cons, not_or] at h
    have hx : ¬(x = ',') := fun hxx => h.1 hxx.symm
    simp only [List.cons_append, splitN2Aux, if_neg hx, List.append_eq, ih post (x :: cur) h.2,
      List.reverse_cons, List.append_assoc, List.singleton_append, List.nil_append]

lemma splitN2Comma_comma (pre post : Str) (h : ',' ∉ pre) :
    splitN2Comma (pre ++ ',' :: post) = [pre, post] := by
  simpa [splitN2Comma] using splitN2Aux_comma pre post [] h

lemma splitN2Comma_no_comma (l : Str) (h : ',' ∉ l) : splitN2Comma l = [l] := by
  simpa [splitN2Comma] using splitN2Aux_no_comma l [] h

/-- C10: the Reader's per-line split is only well-defined when the line has a
comma.  A line `pre ++ "," ++ post` with no comma in `pre` splits into parts
`(pre, post)` and (below the flush threshold) is appended to the accumulator
under key `pre`; a line without any comma takes the out-of-range branch of
`parts[1]`, modelled as `Except.error`, reachable from a whole `scan` run. -/
theorem scan_split_precondition :
    (∀ pre post : Str, ',' ∉ pre → splitN2Comma (pre ++ ',' :: post) = [pre, post]) ∧
    (∀ (ipb : Nat) (st : ScanState) (pre post : Str), ',' ∉ pre → st.n + 1 < ipb →
      scanStep ipb st (pre ++ ',' :: post) =
        Except.ok ⟨accAppend st.acc pre post, st.n + 1, st.linesRead + 1, st.emitted⟩) ∧
    (∀ (ipb : Nat) (st : ScanState) (l : Str), ',' ∉ l →
      scanStep ipb st l = Except.error ()) ∧
    scan 10000 [str "cpu"] = Except.error () := by
  refine ⟨splitN2Comma_comma, ?_, ?_, by decide⟩
  · intro ipb st pre post hpre hlt
    unfold scanStep
    rw [splitN2Comma_comma pre post hpre]
    simp only [scanStepParts, if_neg (by omega : ¬(st.n + 1 ≥ ipb))]
  · intro ipb st l hl
    unfold scanStep
    rw [splitN2Comma_no_comma l hl]
    simp [scanStepParts]

/-- Witness for C10 at concrete lines with and without a comma. -/
theorem scan_split_precondition_witness :
    splitN2Comma (str "cpu" ++ ',' :: str "1,host") = [str "cpu", str "1,host"] ∧
    scan 10000 [str "cpu"] = Except.error () :=
  ⟨scan_split_precondition.1 (str "cpu") (str "1,host") (by decide),
   scan_split_precondition.2.2.2⟩

/-! ### Lemmas about the Worker -/

lemma processRows_ok_cols {ef : Option Nat} : ∀ {rows : List Str} {e col col' e' : Nat},
    processRows ef rows e col = (col', e', none) →
    col' = col + batchCols rows ∧ e' = e + rows.length := by
  intro rows
  induction rows with
  | nil =>
    intro e col col' e' h
    simp only [processRows, Prod.mk.injEq] at h
    simp [batchCols, h.1.symm, h.2.1.symm]
  | cons r rest ih =>
    intro e col col' e' h
    simp only [processRows] at h
    rcases hp : go_parseInt64 (firstPart (splitComma r)) with _ | v <;> simp only [hp] at h
    · simp at h
    · split at h
      · simp at h
      · obtain ⟨h1, h2⟩ := ih h
        simp only [batchCols, List.length_cons]
        omega

lemma processRows_fatal_cases {ef : Option Nat} : ∀ {rows : List Str} {e col col' e' : Nat}
    {p : Fatal}, processRows ef rows e col = (col', e', some p) →
    p = Fatal.parseErr ∨ p = Fatal.execErr := by
  intro rows
  induction rows with
  | nil =>
    intro e col col' e' p h
    simp [processRows] at h
  | cons r rest ih =>
    intro e col col' e' p h
    simp only [processRows] at h
    rcases hp : go_parseInt64 (firstPart (splitComma r)) with _ | v <;> simp only [hp] at h
    · simp only [Prod.mk.injEq, Option.some.injEq] at h
      exact Or.inl h.2.2.symm
    · split at h
      · simp only [Prod.mk.injEq, Option.some.injEq] at h
        exact Or.inr h.2.2.symm
      · exact ih h

lemma processRows_parse_fatal {post : List Str} : ∀ (pre : List Str) (e col : Nat) (bad : Str),
    (∀ r ∈ pre, (go_parseInt64 (firstPart (splitComma r))).isSome = true) →
    go_parseInt64 (firstPart (splitComma bad)) = none →
    processRows none (pre ++ bad :: post) e col =
      (col + batchCols pre + (splitComma bad).length, e + pre.length, some Fatal.parseErr) := by
  intro pre
  induction pre with
  | nil =>
    intro e col bad _ hbad
    simp [processRows, hbad, batchCols]
  | cons r pre ih =>
    intro e col bad hpre hbad
    have hr : (go_parseInt64 (firstPart (splitComma r))).isSome = true := hpre r (by simp)
    rcases hp : go_parseInt64 (firstPart (splitComma r)) with _ | v
    · rw [hp] at hr; simp at hr
    · simp only [List.cons_append, processRows, hp, List.append_eq]
      rw [if_neg (by simp)]
      rw [ih (e + 1) (col + (splitComma r).length) bad
        (fun q hq => hpre q (by simp [hq])) hbad]
      simp only [batchCols, List.length_cons, Prod.mk.injEq]
      refine ⟨by omega, by omega, trivial⟩

/-- C2 (amended): the worker adds the batch's row and field counts to the
shared counters after all rows are executed but before `stmt.Close()` and
`tx.Commit()`.  If prepare, parse, or exec fails, the counters are unchanged
for that batch; if close or commit fails (or nothing fails), the counters
already include the batch. -/
theorem processBatch_counter_order (env : DbEnv) (c : Counters) (b : HypertableBatch) :
    ((processBatch env c b).fatal = some Fatal.prepareErr ∨
     (processBatch env c b).fatal = some Fatal.parseErr ∨
     (processBatch env c b).fatal = some Fatal.execErr →
      (processBatch env c b).counters = c) ∧
    ((processBatch env c b).fatal = none ∨
     (processBatch env c b).fatal = some Fatal.closeErr ∨
     (processBatch env c b).fatal = some Fatal.commitErr →
      (processBatch env c b).counters =
        ⟨c.rowCount + b.rows.length, c.columnCount + batchCols b.rows⟩) := by
  unfold processBatch
  by_cases hprep : env.prepareFails
  · rw [if_pos hprep]
    exact ⟨fun _ => rfl, fun hcase => by simp at hcase⟩
  · rw [if_neg hprep]
    rcases hrows : processRows env.execFailsAt b.rows 0 0 with ⟨col, e', pf⟩
    cases pf with
    | some p =>
      simp only [afterRows]
      refine ⟨fun _ => trivial, fun hcase => ?_⟩
      rcases processRows_fatal_cases hrows with rfl | rfl <;> simp at hcase
    | none =>
      have hcol : col = batchCols b.rows := by
        have := processRows_ok_cols hrows
        omega
      subst hcol
      simp only [afterRows, finishBatch]
      split_ifs <;>
        exact ⟨fun hcase => by simp at hcase, fun _ => by simp⟩

/-- Counterexample to C2 as stated: with a commit failure on a well-formed
single-row batch, the worker dies at commit, yet the shared counters have
already been advanced by the batch's row and field counts. -/
theorem processBatch_commit_counterexample :
    (processBatch ⟨false, none, false, true⟩ ⟨0, 0⟩
        ⟨str "cpu", [str "1000000000,host1,0.5"]⟩).fatal = some Fatal.commitErr ∧
    (processBatch ⟨false, none, false, true⟩ ⟨0, 0⟩
        ⟨str "cpu", [str "1000000000,host1,0.5"]⟩).counters ≠ ⟨0, 0⟩ := by decide

/-- Witness for C2 (amended) on a concrete successful batch. -/
theorem processBatch_counter_order_witness :
    (processBatch ⟨false, none, false, false⟩ ⟨0, 0⟩
        ⟨str "cpu", [str "1000000000,host1,0.5"]⟩).counters = ⟨1, 3⟩ := by
  have h := (processBatch_counter_order ⟨false, none, false, false⟩ ⟨0, 0⟩
      ⟨str "cpu", [str "1000000000,host1,0.5"]⟩).2 (Or.inl (by decide))
  rw [h]
  decide

/-- C5: a batch whose first offending row has a leading field that does not
parse as a base-10 int64 makes the worker die with a fatal parse error at
that row: no later row of the batch is executed and the shared counters are
unchanged. -/
theorem processBatch_parse_fatal (env : DbEnv) (c : Counters) (ht : Str)
    (pre post : List Str) (bad : Str)
    (henv1 : env.prepareFails = false) (henv2 : env.execFailsAt = none)
    (hpre : ∀ r ∈ pre, (go_parseInt64 (firstPart (splitComma r))).isSome = true)
    (hbad : go_parseInt64 (firstPart (splitComma bad)) = none) :
    processBatch env c ⟨ht, pre ++ bad :: post⟩ = ⟨c, pre.length, some Fatal.parseErr⟩ := by
  unfold processBatch
  rw [if_neg (by simp [henv1])]
  simp only [henv2]
  rw [processRows_parse_fatal pre 0 0 bad hpre hbad]
  simp [afterRows]

/-- Witness for C5 on the spec's malformed row `cpu,notanumber,host1,0.5`
(after the Reader strips the leading `cpu,`): the parse error fires on the
very first row and the following well-formed row is never processed. -/
theorem processBatch_parse_fatal_witness :
    processBatch ⟨false, none, false, false⟩ ⟨0, 0⟩
        ⟨str "cpu", [] ++ str "notanumber,host1,0.5" :: [str "1000000000,host1,0.6"]⟩ =
      ⟨⟨0, 0⟩, 0, some Fatal.parseErr⟩ :=
  processBatch_parse_fatal ⟨false, none, false, false⟩ ⟨0, 0⟩ (str "cpu")
    [] [str "1000000000,host1,0.6"] (str "notanumber,host1,0.5")
    rfl rfl (by simp) (by decide)

lemma runWorker_noload (env : DbEnv) : ∀ (bs : List HypertableBatch) (c : Counters),
    runWorker false env bs c = (c, bs.length, none) := by
  intro bs
  induction bs with
  | nil => intro c; simp [runWorker]
  | cons b bs ih => intro c; simp [runWorker, ih]

lemma runWorker_load_consumed (env : DbEnv) : ∀ (bs : List HypertableBatch) (c : Counters),
    (runWorker true env bs c).2.2 = none → (runWorker true env bs c).2.1 = bs.length := by
  intro bs
  induction bs with
  | nil => intro c _; simp [runWorker]
  | cons b bs ih =>
    intro c h
    rcases hf : (processBatch env c b).fatal with _ | p
    · simp only [runWorker, hf, if_true] at h ⊢
      simp only [List.length_cons]
      have := ih (processBatch env c b).counters (by simpa using h)
      simpa using this
    · simp [runWorker, hf] at h

/-- C9: with load-writing disabled a worker still consumes every batch from
the queue but never touches the counters, which stay at zero; with writes
enabled, whenever the run completes without a fatal error it consumes
exactly the same number of batches. -/
theorem runWorker_dry_run (env : DbEnv) (bs : List HypertableBatch) (c : Counters) :
    runWorker false env bs ⟨0, 0⟩ = (⟨0, 0⟩, bs.length, none) ∧
    ((runWorker true env bs c).2.2 = none → (runWorker true env bs c).2.1 = bs.length) :=
  ⟨runWorker_noload env bs ⟨0, 0⟩, runWorker_load_consumed env bs c⟩

/-- Witness for C9 on a concrete one-batch queue. -/
theorem runWorker_dry_run_witness :
    runWorker false ⟨false, none, false, false⟩
        [⟨str "cpu", [str "1000000000,host1,0.5"]⟩] ⟨0, 0⟩ = (⟨0, 0⟩, 1, none) ∧
    (runWorker true ⟨false, none, false, false⟩
        [⟨str "cpu", [str "1000000000,host1,0.5"]⟩] ⟨0, 0⟩).2.1 = 1 := by
  obtain ⟨h1, h2⟩ := runWorker_dry_run ⟨false, none, false, false⟩
    [⟨str "cpu", [str "1000000000,host1,0.5"]⟩] ⟨0, 0⟩
  exact ⟨h1, h2 (by decide)⟩

/-! ### Reporter theorems -/

/-- Counterexample to C3 as stated: the tick output contains no overall
(since-run-start) rate for the column count.  With `colCount = 10`,
`rowCount = 1`, zero previous counts, a 1-second period and 2 seconds since
start, the overall column rate would be 5, but the emitted quantities are
`[10, 1, 1/2, 1]`. -/
theorem report_no_overall_col_rate :
    overallRate 10 2 ∉ reportEmitted 10 1 0 0 1 2 := by
  simp only [reportEmitted, overallRate, List.mem_cons, List.not_mem_nil, or_false]
  norm_num

/-- C3 (amended): each tick of `report` computes and emits the period rate
for both the column count and the row count, and the overall rate for the
row count; those three rates plus the cumulative row total are the only
numbers emitted (there is no overall column rate). -/
theorem report_tick_rates (col row pcol prow : Int) (tp tt : ℚ) :
    periodRate col pcol tp ∈ reportEmitted col row pcol prow tp tt ∧
    periodRate row prow tp ∈ reportEmitted col row pcol prow tp tt ∧
    overallRate row tt ∈ reportEmitted col row pcol prow tp tt ∧
    (reportEmitted col row pcol prow tp tt).length = 4 := by
  refine ⟨?_, ?_, ?_, rfl⟩ <;> simp [reportEmitted, periodRate, overallRate]

/-! ### Schema Initializer theorems -/

/-- C7: the header `cpu,host,usage` followed by a blank line, with tag index
policy `VALUE-TIME` and measurement index policy `TIME-VALUE`, yields exactly
one relation whose indexes are the tag index `(host,time)` and the
measurement index `(time, usage)`. -/
theorem initBenchmarkDB_header_scenario :
    initBenchmarkDB (str "VALUE-TIME") (str "TIME-VALUE") (-1) [str "cpu,host,usage", []] =
      Except.ok [⟨str "cpu", str "host",
        [str "host TEXT", str "usage DOUBLE PRECISION"],
        [str "CREATE INDEX ON cpu (host,time)",
         str "CREATE INDEX ON cpu (time, usage)"]⟩] := by decide

/-- C8: an index-type token other than `TIME-VALUE` and `VALUE-TIME` is a
fatal `Unknown index type` configuration error exactly when it is non-empty,
while the empty token silently yields no index and no error; a bad token in
the policy aborts schema initialization with no relation created. -/
theorem indexClause_unknown_iff (tok field : Str)
    (h1 : tok ≠ str "TIME-VALUE") (h2 : tok ≠ str "VALUE-TIME") :
    (indexClause tok field = Except.error (str "Unknown index type " ++ tok) ↔ tok ≠ []) ∧
    (tok = [] → indexClause tok field = Except.ok none) ∧
    initBenchmarkDB (str "BOGUS") (str "TIME-VALUE") (-1) [str "cpu,host,usage", []] =
      Except.error (str "Unknown index type BOGUS") := by
  refine ⟨?_, fun htok => ?_, by decide⟩
  · by_cases htok : tok = []
    · subst htok
      have hred : indexClause [] field = Except.ok none := by
        simp only [indexClause]
        rw [if_neg h1, if_neg h2]
        simp
      rw [hred]
      simp
    · have hred : indexClause tok field = Except.error (str "Unknown index type " ++ tok) := by
        simp only [indexClause]
        rw [if_neg h1, if_neg h2, if_neg htok]
      rw [hred]
      simp [htok]
  · subst htok
    simp only [indexClause]
    rw [if_neg h1, if_neg h2]
    simp

/-- Witness for C8 at the concrete unrecognized token `BOGUS`. -/
theorem indexClause_unknown_iff_witness :
    (indexClause (str "BOGUS") (str "host") =
        Except.error (str "Unknown index type " ++ str "BOGUS") ↔ str "BOGUS" ≠ []) ∧
    (str "BOGUS" = [] → indexClause (str "BOGUS") (str "host") = Except.ok none) ∧
    initBenchmarkDB (str "BOGUS") (str "TIME-VALUE") (-1) [str "cpu,host,usage", []] =
      Except.error (str "Unknown index type BOGUS") :=
  indexClause_unknown_iff (str "BOGUS") (str "host") (by decide) (by decide)

/-! ### Shutdown ordering theorems -/

/-- Inductive invariant of the coordination transition system. -/
def PipeInv (W : Nat) (s : PipeState) : Prop :=
  (s.inputDone = true → s.readerDone = true) ∧
  (s.queueClosed = true → s.inputDone = true) ∧
  (0 < s.exited → s.queueClosed = true ∧ s.queue = []) ∧
  (s.summaryPrinted = true → s.exited = W)

lemma pipeInv_init (W : Nat) : PipeInv W pipeInit := by
  simp [PipeInv, pipeInit]

lemma pipeInv_step {W : Nat} {s s' : PipeState} (hinv : PipeInv W s)
    (hstep : PipeStep W s s') : PipeInv W s' := by
  obtain ⟨i1, i2, i3, i4⟩ := hinv
  cases hstep with
  | enqueue b h1 h2 =>
    exact ⟨i1, i2, fun hex => absurd (i3 hex).1 (by simp [h2]), i4⟩
  | readerFinish h1 =>
    exact ⟨fun _ => rfl, i2, i3, i4⟩
  | signalInputDone h1 h2 =>
    exact ⟨fun _ => h1, fun _ => rfl, i3, i4⟩
  | closeQueue h1 h2 =>
    exact ⟨i1, fun _ => h1, fun hex => absurd (i3 hex).1 (by simp [h2]), i4⟩
  | workerTake b q hq =>
    refine ⟨i1, i2, fun hex => ?_, i4⟩
    have h3 := i3 hex
    rw [hq] at h3
    exact absurd h3.2 (by simp)
  | workerExit h1 h2 h3 =>
    refine ⟨i1, i2, fun _ => ⟨h1, h2⟩, fun hsp => ?_⟩
    have := i4 hsp
    omega
  | printSummary h1 h2 =>
    exact ⟨i1, i2, i3, fun _ => h1⟩

lemma pipeInv_reachable {W : Nat} {s : PipeState} (h : PipeReachable W s) : PipeInv W s := by
  induction h with
  | refl => exact pipeInv_init W
  | tail _ hstep ih => exact pipeInv_step ih hstep

/-- C6: in every reachable coordination state, the batch queue is closed only
after the Reader has finished flushing and signalled completion; no worker
has announced termination unless the queue is closed and fully drained; and
the final summary is printed only once all `W` workers have announced. -/
theorem main_shutdown_ordering (W : Nat) (s : PipeState) (h : PipeReachable W s) :
    (s.queueClosed = true → s.readerDone = true ∧ s.inputDone = true) ∧
    (0 < s.exited → s.queueClosed = true ∧ s.queue = []) ∧
    (s.summaryPrinted = true → s.exited = W) := by
  obtain ⟨i1, i2, i3, i4⟩ := pipeInv_reachable h
  exact ⟨fun hc => ⟨i1 (i2 hc), i2 hc⟩, i3, i4⟩

/-- Witness for C6 along a complete one-worker run: enqueue one batch, reader
finishes and signals, the coordinator closes the queue, the worker drains and
exits, and the summary is printed. -/
theorem main_shutdown_ordering_witness :
    ((⟨true, true, [], true, 1, true⟩ : PipeState).queueClosed = true →
      (⟨true, true, [], true, 1, true⟩ : PipeState).readerDone = true ∧
      (⟨true, true, [], true, 1, true⟩ : PipeState).inputDone = true) ∧
    (0 < (⟨true, true, [], true, 1, true⟩ : PipeState).exited →
      (⟨true, true, [], true, 1, true⟩ : PipeState).queueClosed = true ∧
      (⟨true, true, [], true, 1, true⟩ : PipeState).queue = []) ∧
    ((⟨true, true, [], true, 1, true⟩ : PipeState).summaryPrinted = true →
      (⟨true, true, [], true, 1, true⟩ : PipeState).exited = 1) := by
  refine main_shutdown_ordering 1 _ ?_
  have e1 : PipeStep 1 ⟨false, false, [], false, 0, false⟩ ⟨false, false, [5], false, 0, false⟩ :=
    PipeStep.enqueue ⟨false, false, [], false, 0, false⟩ 5 rfl rfl
  have e2 : PipeStep 1 ⟨false, false, [5], false, 0, false⟩ ⟨true, false, [5], false, 0, false⟩ :=
    PipeStep.readerFinish ⟨false, false, [5], false, 0, false⟩ rfl
  have e3 : PipeStep 1 ⟨true, false, [5], false, 0, false⟩ ⟨true, true, [5], false, 0, false⟩ :=
    PipeStep.signalInputDone ⟨true, false, [5], false, 0, false⟩ rfl rfl
  have e4 : PipeStep 1 ⟨true, true, [5], false, 0, false⟩ ⟨true, true, [5], true, 0, false⟩ :=
    PipeStep.closeQueue ⟨true, true, [5], false, 0, false⟩ rfl rfl
  have e5 : PipeStep 1 ⟨true, true, [5], true, 0, false⟩ ⟨true, true, [], true, 0, false⟩ :=
    PipeStep.workerTake ⟨true, true, [5], true, 0, false⟩ 5 [] rfl
  have e6 : PipeStep 1 ⟨true, true, [], true, 0, false⟩ ⟨true, true, [], true, 1, false⟩ :=
    PipeStep.workerExit ⟨true, true, [], true, 0, false⟩ rfl rfl (by decide)
  have e7 : PipeStep 1 ⟨true, true, [], true, 1, false⟩ ⟨true, true, [], true, 1, true⟩ :=
    PipeStep.printSummary ⟨true, true, [], true, 1, false⟩ rfl rfl
  exact Relation.ReflTransGen.tail
    (Relation.ReflTransGen.tail
      (Relation.ReflTransGen.tail
        (Relation.ReflTransGen.tail
          (Relation.ReflTransGen.tail
            (Relation.ReflTransGen.tail
              (Relation.ReflTransGen.tail Relation.ReflTransGen.refl e1) e2) e3) e4) e5) e6) e7

end TSBS
